import Mathlib

/-!
Verification of the real-time playback / lip-sync engine in
`services/audio_router.py`.

The development shallowly embeds the engine:

* the envelope stage of `VMCLipSync.rms_to_blend_shapes` (exact rational
  arithmetic, so it is embedded over `ℚ` and fully executable);
* the viseme synthesis stage (sine lobes, hence over `ℝ`);
* `VMCLipSync._fade_close` and `VMCLipSync.close_mouth`;
* the accounting and amplitude components of the `audio_callback` closure
  of `AudioRouter.play_audio_with_vmc`;
* the single-consumer playback queue worker of `start_api_server`.
-/

namespace AudioRouter

/-- The five vowel blend shapes used by `VMCLipSync` (`VOWELS` in the source). -/
inductive Vowel
  | A | I | U | E | O
deriving DecidableEq

/-- Constructor parameters of `VMCLipSync` that the engine mathematics uses. -/
structure LipSyncConfig where
  gain : ℚ
  maxOpen : ℚ
  attack : ℚ
  release : ℚ
  vowelSpeed : ℚ
deriving DecidableEq

/-- Default configuration from the source: gain 6.0, max_open 0.65,
attack 0.55, release 0.75, vowel_speed 3.5. -/
def defaultConfig : LipSyncConfig :=
  { gain := 6, maxOpen := 65/100, attack := 55/100, release := 75/100, vowelSpeed := 35/10 }

/-- Send rate `FPS = 30` from the source. -/
def lipFPS : ℚ := 30

/-- The persistent envelope fields of `VMCLipSync`: `_envelope` and `_vowel_phase`. -/
structure EnvState where
  level : ℚ
  phase : ℚ
deriving DecidableEq

/-- Envelope stage of `VMCLipSync.rms_to_blend_shapes` (source lines 138-158):
compute `target`, apply the asymmetric one-pole filter to the stored
envelope, clamp into a local value, apply the 0.02 speaking-threshold gate
(which zeroes the local value and resets the stored vowel phase), and
advance the vowel phase otherwise.  Returns the final local `envelope`
value (which the method returns on line 194) together with the new stored
state.  Note that the source stores the filter output unclamped and the
gate zeroes only the local copy, never the stored `_envelope`. -/
def envUpdate (cfg : LipSyncConfig) (st : EnvState) (rms : ℚ) : ℚ × EnvState :=
  let target := min cfg.maxOpen (rms * cfg.gain)
  let filtered :=
    if target > st.level then st.level + (target - st.level) * cfg.attack
    else st.level + (target - st.level) * (1 - cfg.release)
  let envelope := max 0 (min cfg.maxOpen filtered)
  if envelope < 2/100 then (0, { level := filtered, phase := 0 })
  else (envelope, { level := filtered, phase := st.phase + cfg.vowelSpeed / lipFPS })

/-- Modelled from the claim C3 wording: the same per-call computation, but
with the clamp applied to the stored level and, when the result is below
0.02, the stored level itself forced to 0. -/
def envUpdateClaimed (cfg : LipSyncConfig) (st : EnvState) (rms : ℚ) : ℚ × EnvState :=
  let target := min cfg.maxOpen (rms * cfg.gain)
  let moved :=
    if target > st.level then st.level + (target - st.level) * cfg.attack
    else st.level + (target - st.level) * (1 - cfg.release)
  let clamped := max 0 (min cfg.maxOpen moved)
  if clamped < 2/100 then (0, { level := 0, phase := 0 })
  else (clamped, { level := clamped, phase := st.phase + cfg.vowelSpeed / lipFPS })

/-- Modelled from the amended claim C3 wording: the clamp to `[0, maxOpen]`
and the 0.02 gate shape only the returned openness; the stored level keeps
the raw filter output, and the vowel phase resets exactly when the gate
fires. -/
def envUpdateAmended (cfg : LipSyncConfig) (st : EnvState) (rms : ℚ) : ℚ × EnvState :=
  let target := min cfg.maxOpen (rms * cfg.gain)
  let moved :=
    if target > st.level then st.level + (target - st.level) * cfg.attack
    else st.level + (target - st.level) * (1 - cfg.release)
  let openness := max 0 (min cfg.maxOpen moved)
  if openness < 2/100 then (0, { level := moved, phase := 0 })
  else (openness, { level := moved, phase := st.phase + cfg.vowelSpeed / lipFPS })

/-- Run the envelope tracker over a list of loudness samples, one tick per
entry, returning the final stored state. -/
def envRun (cfg : LipSyncConfig) (st : EnvState) (inputs : List ℚ) : EnvState :=
  inputs.foldl (fun s r => (envUpdate cfg s r).2) st

/-- Openness values returned by successive envelope updates, one per tick. -/
def envOutputs (cfg : LipSyncConfig) : EnvState → List ℚ → List ℚ
  | _, [] => []
  | st, r :: rs =>
    let step := envUpdate cfg st r
    step.1 :: envOutputs cfg step.2 rs

/-- One envelope step keeps the stored level inside `[0, maxOpen]`. -/
theorem envUpdate_level_mem (cfg : LipSyncConfig) (st : EnvState) (rms : ℚ)
    (hg : 0 ≤ cfg.gain) (hm : 0 ≤ cfg.maxOpen)
    (ha0 : 0 ≤ cfg.attack) (ha1 : cfg.attack ≤ 1)
    (hr0 : 0 ≤ cfg.release) (hr1 : cfg.release ≤ 1)
    (hrms : 0 ≤ rms) (h0 : 0 ≤ st.level) (h1 : st.level ≤ cfg.maxOpen) :
    0 ≤ (envUpdate cfg st rms).2.level ∧ (envUpdate cfg st rms).2.level ≤ cfg.maxOpen := by
  have htn : 0 ≤ rms * cfg.gain := mul_nonneg hrms hg
  have ht0 : 0 ≤ min cfg.maxOpen (rms * cfg.gain) := le_min hm htn
  have ht1 : min cfg.maxOpen (rms * cfg.gain) ≤ cfg.maxOpen := min_le_left _ _
  unfold envUpdate
  set target := min cfg.maxOpen (rms * cfg.gain) with htarget
  by_cases hcmp : target > st.level
  · simp only [hcmp, if_true]
    constructor
    · split <;> simp only <;> nlinarith
    · split <;> simp only <;> nlinarith
  · simp only [hcmp, if_false]
    constructor
    · split <;> simp only <;> nlinarith [not_lt.mp hcmp]
    · split <;> simp only <;> nlinarith [not_lt.mp hcmp]

/-- Any run of the envelope tracker preserves the level bounds. -/
theorem envRun_level_mem (cfg : LipSyncConfig)
    (hg : 0 ≤ cfg.gain) (hm : 0 ≤ cfg.maxOpen)
    (ha0 : 0 ≤ cfg.attack) (ha1 : cfg.attack ≤ 1)
    (hr0 : 0 ≤ cfg.release) (hr1 : cfg.release ≤ 1) :
    ∀ (inputs : List ℚ), (∀ r ∈ inputs, 0 ≤ r) → ∀ (st : EnvState),
      0 ≤ st.level → st.level ≤ cfg.maxOpen →
      0 ≤ (envRun cfg st inputs).level ∧ (envRun cfg st inputs).level ≤ cfg.maxOpen := by
  intro inputs
  induction inputs with
  | nil => intro _ st h0 h1; exact ⟨h0, h1⟩
  | cons r rs ih =>
    intro hall st h0 h1
    have hr : 0 ≤ r := hall r (List.mem_cons_self ..)
    have hstep := envUpdate_level_mem cfg st r hg hm ha0 ha1 hr0 hr1 hr h0 h1
    have hrest : ∀ x ∈ rs, 0 ≤ x := fun x hx => hall x (List.mem_cons_of_mem _ hx)
    simpa [envRun, List.foldl_cons] using ih hrest (envUpdate cfg st r).2 hstep.1 hstep.2

/-- Claim C4: starting from the all-zero state, for every finite sequence of
non-negative loudness samples, with attack and release in `[0, 1]` (and the
non-negative gain and maxOpen any such configuration has), the stored
envelope level lies in `[0, maxOpen]` after every tick.  Since every prefix
of an input sequence is itself an input sequence, bounding the final state
of an arbitrary sequence bounds the state after every tick. -/
theorem claim4_level_bounded (cfg : LipSyncConfig) (inputs : List ℚ)
    (hg : 0 ≤ cfg.gain) (hm : 0 ≤ cfg.maxOpen)
    (ha0 : 0 ≤ cfg.attack) (ha1 : cfg.attack ≤ 1)
    (hr0 : 0 ≤ cfg.release) (hr1 : cfg.release ≤ 1)
    (hin : ∀ r ∈ inputs, 0 ≤ r) :
    0 ≤ (envRun cfg { level := 0, phase := 0 } inputs).level ∧
      (envRun cfg { level := 0, phase := 0 } inputs).level ≤ cfg.maxOpen :=
  envRun_level_mem cfg hg hm ha0 ha1 hr0 hr1 inputs hin _ le_rfl hm

/-- Witness for claim C4 at a concrete configuration and input sequence. -/
theorem claim4_level_bounded_witness :
    0 ≤ (envRun defaultConfig { level := 0, phase := 0 } [1/10, 2/10, 0]).level ∧
      (envRun defaultConfig { level := 0, phase := 0 } [1/10, 2/10, 0]).level ≤
        defaultConfig.maxOpen :=
  claim4_level_bounded defaultConfig [1/10, 2/10, 0]
    (by norm_num [defaultConfig]) (by norm_num [defaultConfig])
    (by norm_num [defaultConfig]) (by norm_num [defaultConfig])
    (by norm_num [defaultConfig]) (by norm_num [defaultConfig])
    (by norm_num [List.forall_mem_cons])

/-- Claim C3 counterexample: feeding two ticks of loudness 1/200 (both
non-negative) into the all-zero state under the default configuration, the
source update returns openness 957/40000 on the second tick, while the
update as the claim words it (stored level forced to 0 when the clamped
result is below 0.02) returns 0: the claim does not describe the code. -/
theorem claim3_counterexample :
    (envUpdate defaultConfig { level := 0, phase := 0 } (1/200)).1 = 0 ∧
    (envUpdateClaimed defaultConfig { level := 0, phase := 0 } (1/200)).1 = 0 ∧
    (envUpdate defaultConfig
        (envUpdate defaultConfig { level := 0, phase := 0 } (1/200)).2 (1/200)).1
      = 957/40000 ∧
    (envUpdateClaimed defaultConfig
        (envUpdateClaimed defaultConfig { level := 0, phase := 0 } (1/200)).2 (1/200)).1
      = 0 ∧
    (957/40000 : ℚ) ≠ 0 := by
  norm_num [envUpdate, envUpdateClaimed, defaultConfig, lipFPS]

/-- Claim C3 amended: per call the tracker computes
`target = min(maxOpen, loudness * gain)`, moves the stored level by
`(target - level) * attack` when `target > level` and by
`(target - level) * (1 - release)` otherwise, and returns as openness the
moved level clamped to `[0, maxOpen]`, with an openness below 0.02 replaced
by 0 and the vowel phase reset to 0 in that case; the clamp and the
force-to-zero shape only the returned openness, while the stored level
keeps the raw filter output. -/
theorem claim3_amended_update (cfg : LipSyncConfig) (st : EnvState) (rms : ℚ) :
    envUpdate cfg st rms = envUpdateAmended cfg st rms := rfl

/-- Claim C9 counterexample: under the default configuration (which
satisfies attack 0.55 > 1 - release = 0.25), a sustained step to the
constant target 0.03 (loudness 1/200, so target = min(0.65, 6/200) = 0.03)
needs 6 ticks to come within 1% of the target (out ≥ 0.0297), but after
the input drops to 0 the openness output reaches 0 after only 2 ticks:
the attack tick count (6) is not strictly smaller than the decay tick
count (2). -/
theorem claim9_counterexample :
    (envOutputs defaultConfig { level := 0, phase := 0 }
        (List.replicate 6 (1/200) ++ [0, 0])).getD 0 0 < 297/10000 ∧
    (envOutputs defaultConfig { level := 0, phase := 0 }
        (List.replicate 6 (1/200) ++ [0, 0])).getD 1 0 < 297/10000 ∧
    (envOutputs defaultConfig { level := 0, phase := 0 }
        (List.replicate 6 (1/200) ++ [0, 0])).getD 2 0 < 297/10000 ∧
    (envOutputs defaultConfig { level := 0, phase := 0 }
        (List.replicate 6 (1/200) ++ [0, 0])).getD 3 0 < 297/10000 ∧
    (envOutputs defaultConfig { level := 0, phase := 0 }
        (List.replicate 6 (1/200) ++ [0, 0])).getD 4 0 < 297/10000 ∧
    297/10000 ≤ (envOutputs defaultConfig { level := 0, phase := 0 }
        (List.replicate 6 (1/200) ++ [0, 0])).getD 5 0 ∧
    0 < (envOutputs defaultConfig { level := 0, phase := 0 }
        (List.replicate 6 (1/200) ++ [0, 0])).getD 6 0 ∧
    (envOutputs defaultConfig { level := 0, phase := 0 }
        (List.replicate 6 (1/200) ++ [0, 0])).getD 7 0 = 0 := by
  norm_num [envOutputs, envUpdate, defaultConfig, lipFPS, List.replicate]

/-- Openness outputs of the tracker under the default configuration for a
sustained full-scale step (loudness 1/5, so target = min(0.65, 6/5) =
maxOpen = 0.65) held for 6 ticks, followed by 13 ticks of silence. -/
def fullScaleRun : List ℚ :=
  envOutputs defaultConfig { level := 0, phase := 0 }
    (List.replicate 6 (1/5) ++ List.replicate 13 0)

/-- Claim C9 amended: under the default configuration (attack 0.55 >
1 - release = 0.25) and a sustained full-scale step (constant target =
maxOpen = 0.65), the tracker needs 6 ticks to come within 1% of the target
(openness ≥ 0.6435 first at tick 6), and after the input drops back to 0
it needs 13 ticks for the openness to decay to 0 (still positive at decay
tick 12, zero at decay tick 13); 6 is strictly smaller than 13.  The
original unrestricted claim fails for small targets, as the counterexample
shows. -/
theorem claim9_amended_attack_faster :
    fullScaleRun.getD 0 0 < 6435/10000 ∧
    fullScaleRun.getD 1 0 < 6435/10000 ∧
    fullScaleRun.getD 2 0 < 6435/10000 ∧
    fullScaleRun.getD 3 0 < 6435/10000 ∧
    fullScaleRun.getD 4 0 < 6435/10000 ∧
    6435/10000 ≤ fullScaleRun.getD 5 0 ∧
    0 < fullScaleRun.getD 6 0 ∧
    0 < fullScaleRun.getD 7 0 ∧
    0 < fullScaleRun.getD 8 0 ∧
    0 < fullScaleRun.getD 9 0 ∧
    0 < fullScaleRun.getD 10 0 ∧
    0 < fullScaleRun.getD 11 0 ∧
    0 < fullScaleRun.getD 12 0 ∧
    0 < fullScaleRun.getD 13 0 ∧
    0 < fullScaleRun.getD 14 0 ∧
    0 < fullScaleRun.getD 15 0 ∧
    0 < fullScaleRun.getD 16 0 ∧
    0 < fullScaleRun.getD 17 0 ∧
    fullScaleRun.getD 18 0 = 0 := by
  norm_num [fullScaleRun, envOutputs, envUpdate, defaultConfig, lipFPS, List.replicate]

/-- State shared between the audio callback and its driver in
`play_audio_with_vmc`: the write cursor `write_pos`, the completion flag
`playback_done`, and whether `sd.CallbackStop` has been raised (after which
the device issues no further callbacks). -/
structure CBState where
  writePos : Nat
  done : Bool
  stopped : Bool
deriving DecidableEq

/-- Cursor and completion accounting of the `audio_callback` closure
(source lines 421-451).  On each invocation requesting `frames` frames:
either the cursor is already at or past the end (zero-fill the chunk, reset
the amplitude cell, signal completion, raise CallbackStop), or the slice
`[start, min (start+frames) total)` is copied, the cursor advanced, and, if
the buffer is now exhausted, completion signalled and CallbackStop raised.
Returns the number of frames actually copied and the new state. -/
def audioCallbackAdvance (total : Nat) (s : CBState) (frames : Nat) : Nat × CBState :=
  if total ≤ s.writePos then
    (0, { writePos := s.writePos, done := true, stopped := true })
  else
    let fin := min (s.writePos + frames) total
    let actual := fin - s.writePos
    if total ≤ fin then (actual, { writePos := fin, done := true, stopped := true })
    else (actual, { writePos := fin, done := s.done, stopped := s.stopped })

/-- Drive the callback over a list of requested chunk sizes, as the output
stream does: each invocation runs only while CallbackStop has not been
raised.  Returns the trace of (frames copied, state after invocation). -/
def runCallbacks (total : Nat) : CBState → List Nat → List (Nat × CBState)
  | _, [] => []
  | s, f :: fs =>
    if s.stopped then []
    else
      let r := audioCallbackAdvance total s f
      r :: runCallbacks total r.2 fs

/-- Once CallbackStop has been raised, no further invocations happen. -/
theorem runCallbacks_stopped (total : Nat) (s : CBState) (l : List Nat)
    (h : s.stopped = true) : runCallbacks total s l = [] := by
  cases l with
  | nil => rfl
  | cons f fs => simp [runCallbacks, h]

/-- Invariant behind claim C1: from any not-yet-finished, not-yet-stopped
state, enough positive chunk requests drive the buffer to completion with
the copied frame counts summing to the remaining frames, the completion
flag false strictly before the final invocation and true, with the cursor
at the buffer end and CallbackStop raised, on the invocation that consumes
the final chunk. -/
theorem runCallbacks_spec (total : Nat) :
    ∀ (cs : List Nat) (s : CBState), (∀ f ∈ cs, 0 < f) →
      s.writePos < total → s.done = false → s.stopped = false →
      total ≤ s.writePos + cs.sum →
      (((runCallbacks total s cs).map Prod.fst).sum = total - s.writePos) ∧
      (runCallbacks total s cs ≠ []) ∧
      (∀ r ∈ (runCallbacks total s cs).dropLast, r.2.done = false ∧ r.2.stopped = false) ∧
      ((runCallbacks total s cs).getLast?.map Prod.snd =
        some { writePos := total, done := true, stopped := true }) := by
  intro cs
  induction cs with
  | nil =>
    intro s _ hlt _ _ hsum
    simp only [List.sum_nil, Nat.add_zero] at hsum
    omega
  | cons f fs ih =>
    intro s hpos hlt hdone hstop hsum
    have hne : ¬ total ≤ s.writePos := not_le.mpr hlt
    by_cases hfin : total ≤ s.writePos + f
    · -- this invocation consumes the final chunk
      have hmin : min (s.writePos + f) total = total := min_eq_right hfin
      have hrun : runCallbacks total s (f :: fs) =
          [(total - s.writePos, { writePos := total, done := true, stopped := true })] := by
        simp only [runCallbacks, hstop, Bool.false_eq_true, if_false,
          audioCallbackAdvance, hne, if_false, hmin, le_refl, if_true]
        rw [runCallbacks_stopped _ _ _ rfl]
      rw [hrun]
      refine ⟨by simp, by simp, ?_, by simp⟩
      intro r hr
      simp [List.dropLast] at hr
    · -- a strictly interior chunk
      push_neg at hfin
      have hmin : min (s.writePos + f) total = s.writePos + f := min_eq_left (le_of_lt hfin)
      have hnotfin : ¬ total ≤ s.writePos + f := not_le.mpr hfin
      have hrun : runCallbacks total s (f :: fs) =
          (f, { writePos := s.writePos + f, done := s.done, stopped := s.stopped }) ::
            runCallbacks total
              { writePos := s.writePos + f, done := s.done, stopped := s.stopped } fs := by
        simp only [runCallbacks, hstop, Bool.false_eq_true, if_false,
          audioCallbackAdvance, hne, if_false, hmin, hnotfin]
        simp [Nat.add_sub_cancel_left]
      have hrest := ih { writePos := s.writePos + f, done := s.done, stopped := s.stopped }
        (fun x hx => hpos x (List.mem_cons_of_mem _ hx)) hfin (by simpa using hdone)
        (by simpa using hstop) (by simp only [List.sum_cons] at hsum; simpa using by omega)
      obtain ⟨hsum', hne', hinner, hlast⟩ := hrest
      rw [hrun]
      refine ⟨?_, by simp, ?_, ?_⟩
      · simp only [List.map_cons, List.sum_cons, hsum']
        omega
      · intro r hr
        rw [List.dropLast_cons_of_ne_nil hne'] at hr
        rcases List.mem_cons.mp hr with h | h
        · subst h; simp [hdone, hstop]
        · exact hinner r h
      · rcases List.exists_cons_of_ne_nil hne' with ⟨x, xs, hx⟩
        rw [hx, List.getLast?_cons_cons]
        rw [hx] at hlast
        exact hlast

/-- Claim C1: for a non-empty PCM buffer of `total` frames rendered through
the callback, over any sequence of device invocations with positive
requested chunk sizes offering at least `total` frames in all, the frame
counts actually copied sum to exactly `total` (the rest of a partial final
chunk being zero-filled); the completion flag is false after every
invocation before the one that consumes the final chunk, and on that
invocation it becomes true with the cursor exactly at the buffer end and
CallbackStop raised; an invocation arriving with the cursor at or past the
end copies nothing and merely signals completion again (idempotence), and
once CallbackStop is raised no further invocations are issued. -/
theorem claim1_render_accounting (total : Nat) (cs : List Nat)
    (htot : 0 < total) (hpos : ∀ f ∈ cs, 0 < f) (henough : total ≤ cs.sum) :
    (((runCallbacks total { writePos := 0, done := false, stopped := false } cs).map
        Prod.fst).sum = total) ∧
    (runCallbacks total { writePos := 0, done := false, stopped := false } cs ≠ []) ∧
    (∀ r ∈ (runCallbacks total { writePos := 0, done := false, stopped := false }
          cs).dropLast, r.2.done = false ∧ r.2.stopped = false) ∧
    ((runCallbacks total { writePos := 0, done := false, stopped := false }
        cs).getLast?.map Prod.snd =
      some { writePos := total, done := true, stopped := true }) ∧
    (∀ (s : CBState) (f : Nat), total ≤ s.writePos →
      audioCallbackAdvance total s f =
        (0, { writePos := s.writePos, done := true, stopped := true })) ∧
    (∀ (s : CBState) (l : List Nat), s.stopped = true → runCallbacks total s l = []) := by
  have h := runCallbacks_spec total cs
    { writePos := 0, done := false, stopped := false } hpos htot rfl rfl (by simpa using henough)
  refine ⟨by simpa using h.1, h.2.1, h.2.2.1, h.2.2.2, ?_, fun s l => runCallbacks_stopped total s l⟩
  intro s f hs
  simp [audioCallbackAdvance, hs]

/-- Witness for claim C1: a 5-frame buffer rendered in chunks of 2. -/
theorem claim1_render_accounting_witness :
    0 < 5 ∧ (∀ f ∈ [2, 2, 2], 0 < f) ∧ 5 ≤ [2, 2, 2].sum ∧
    ((((runCallbacks 5 { writePos := 0, done := false, stopped := false } [2, 2, 2]).map
        Prod.fst).sum = 5) ∧
    (runCallbacks 5 { writePos := 0, done := false, stopped := false } [2, 2, 2] ≠ []) ∧
    (∀ r ∈ (runCallbacks 5 { writePos := 0, done := false, stopped := false }
          [2, 2, 2]).dropLast, r.2.done = false ∧ r.2.stopped = false) ∧
    ((runCallbacks 5 { writePos := 0, done := false, stopped := false }
        [2, 2, 2]).getLast?.map Prod.snd =
      some { writePos := 5, done := true, stopped := true }) ∧
    (∀ (s : CBState) (f : Nat), 5 ≤ s.writePos →
      audioCallbackAdvance 5 s f =
        (0, { writePos := s.writePos, done := true, stopped := true })) ∧
    (∀ (s : CBState) (l : List Nat), s.stopped = true → runCallbacks 5 s l = [])) :=
  ⟨by decide, by decide, by decide,
    claim1_render_accounting 5 [2, 2, 2] (by decide) (by decide) (by decide)⟩

/-- Root-mean-square of a list of samples, as the source computes it with
np.sqrt(np.mean(chunk ** 2)). -/
noncomputable def chunkRMS (xs : List ℝ) : ℝ :=
  Real.sqrt ((xs.map (fun x => x ^ 2)).sum / (xs.length : ℝ))

/-- Amplitude component of the `audio_callback` closure for a buffer laid
out as frames of `c + 1` channels (the 2-D branch of the source; the 1-D
mono branch is the `c = 0` instance, where column 0 is the whole frame):
the value written to the shared amplitude cell `current_rms`.  In the
already-finished branch the cell is reset to 0; otherwise it is the RMS of
column 0 of the copied slice `samples[start:end]` (`mono_chunk` in the
source). -/
noncomputable def audioCallbackRms (total c : Nat)
    (samples : Nat → Fin (c + 1) → ℝ) (s : CBState) (frames : Nat) : ℝ :=
  if total ≤ s.writePos then 0
  else
    chunkRMS ((List.range (min (s.writePos + frames) total - s.writePos)).map
      (fun i => samples (s.writePos + i) 0))

/-- Output chunk produced by the `audio_callback` closure: `frames` rows,
the copied slice first and zero rows after it (`outdata[actual:] = 0`; in
the already-finished branch `outdata[:] = 0`). -/
noncomputable def audioCallbackOut (total c : Nat)
    (samples : Nat → Fin (c + 1) → ℝ) (s : CBState) (frames : Nat) :
    List (Fin (c + 1) → ℝ) :=
  if total ≤ s.writePos then List.replicate frames (fun _ => 0)
  else
    (List.range frames).map (fun i =>
      if s.writePos + i < min (s.writePos + frames) total then samples (s.writePos + i)
      else fun _ => 0)

/-- Modelled from the claim C2 wording: the root-mean-square of all the
actual samples copied in one invocation, taken across every channel of the
copied frames. -/
noncomputable def allCopiedRms (total c : Nat)
    (samples : Nat → Fin (c + 1) → ℝ) (s : CBState) (frames : Nat) : ℝ :=
  chunkRMS (((List.range (min (s.writePos + frames) total - s.writePos)).map
    (fun i => List.ofFn (fun j : Fin (c + 1) => samples (s.writePos + i) j))).flatten)

/-- Claim C2 counterexample: a one-frame stereo buffer whose single frame
is (0, 1), played in one invocation that copies that frame.  The callback
stores the RMS of channel 0 only, which is 0, while the RMS of the actual
samples copied to the output (both channels) is sqrt(1/2) ≠ 0: for stereo
buffers the stored value is not the RMS of the samples copied. -/
theorem claim2_counterexample :
    audioCallbackRms 1 1 (fun _ j => if j = 0 then 0 else 1)
        { writePos := 0, done := false, stopped := false } 1 = 0 ∧
    allCopiedRms 1 1 (fun _ j => if j = 0 then 0 else 1)
        { writePos := 0, done := false, stopped := false } 1 ≠ 0 ∧
    audioCallbackRms 1 1 (fun _ j => if j = 0 then 0 else 1)
        { writePos := 0, done := false, stopped := false } 1 ≠
      allCopiedRms 1 1 (fun _ j => if j = 0 then 0 else 1)
        { writePos := 0, done := false, stopped := false } 1 := by
  have h0 : audioCallbackRms 1 1 (fun _ j => if j = 0 then 0 else 1)
      { writePos := 0, done := false, stopped := false } 1 = 0 := by
    simp [audioCallbackRms, chunkRMS, List.range_succ]
  have h1 : allCopiedRms 1 1 (fun _ j => if j = 0 then 0 else 1)
      { writePos := 0, done := false, stopped := false } 1 = Real.sqrt (1 / 2) := by
    simp [allCopiedRms, chunkRMS, List.range_succ, List.ofFn_succ, Fin.ext_iff]
  have h2 : Real.sqrt (1 / 2) ≠ 0 := by
    rw [Real.sqrt_ne_zero']; norm_num
  refine ⟨h0, by rw [h1]; exact h2, by rw [h0, h1]; exact fun h => h2 h.symm⟩

/-- Claim C2 amended: on every invocation that copies at least one frame,
the value stored into the shared amplitude cell equals the root-mean-square
of channel 0 of the frames actually copied to the output chunk in that
invocation (computed from the copied data itself, not a pre-pass estimate);
for single-channel buffers this is the RMS of all the samples copied. -/
theorem claim2_amended_rms (total c : Nat) (samples : Nat → Fin (c + 1) → ℝ)
    (s : CBState) (frames : Nat) (hpos : s.writePos < total) (hf : 0 < frames) :
    (audioCallbackRms total c samples s frames =
      chunkRMS (((audioCallbackOut total c samples s frames).take
          (min (s.writePos + frames) total - s.writePos)).map (fun row => row 0))) ∧
    (∀ (mono : Nat → Fin 1 → ℝ),
      audioCallbackRms total 0 mono s frames = allCopiedRms total 0 mono s frames) := by
  have hne : ¬ total ≤ s.writePos := not_le.mpr hpos
  have hactual : min (s.writePos + frames) total - s.writePos ≤ frames := by
    rcases min_le_left (s.writePos + frames) total with h
    omega
  constructor
  · rw [audioCallbackRms, audioCallbackOut, if_neg hne, if_neg hne]
    congr 1
    rw [← List.map_take, List.take_range, min_eq_left hactual, List.map_map]
    refine List.map_congr_left ?_
    intro i hi
    rw [List.mem_range] at hi
    have : s.writePos + i < min (s.writePos + frames) total := by
      have hle : s.writePos ≤ min (s.writePos + frames) total :=
        le_min (Nat.le_add_right _ _) (le_of_lt hpos)
      omega
    simp only [Function.comp_apply]
    rw [if_pos this]
  · intro mono
    rw [audioCallbackRms, allCopiedRms, if_neg hne]
    congr 1
    induction (List.range (min (s.writePos + frames) total - s.writePos)) with
    | nil => rfl
    | cons a t ih =>
      simp only [List.map_cons, List.flatten_cons, List.ofFn_succ, List.ofFn_zero]
      rw [ih]
      rfl

/-- Witness for claim C2 amended at a concrete one-frame mono buffer. -/
theorem claim2_amended_rms_witness :
    0 < 1 ∧ 0 < 1 ∧
    ((audioCallbackRms 1 0 (fun _ _ => 1) { writePos := 0, done := false, stopped := false } 1 =
      chunkRMS (((audioCallbackOut 1 0 (fun _ _ => 1)
          { writePos := 0, done := false, stopped := false } 1).take
          (min (0 + 1) 1 - 0)).map (fun row => row 0))) ∧
    (∀ (mono : Nat → Fin 1 → ℝ),
      audioCallbackRms 1 0 mono { writePos := 0, done := false, stopped := false } 1 =
        allCopiedRms 1 0 mono { writePos := 0, done := false, stopped := false } 1)) :=
  ⟨by decide, by decide,
    claim2_amended_rms 1 0 (fun _ _ => 1)
      { writePos := 0, done := false, stopped := false } 1 (by decide) (by decide)⟩

/-- Phase offset of each vowel lobe (source lines 163-167; the `A` lobe is
written with no addend, offset 0). -/
noncomputable def vowelOffset : Vowel → ℝ
  | Vowel.A => 0
  | Vowel.E => 1.2
  | Vowel.I => 2.5
  | Vowel.O => 3.8
  | Vowel.U => 5.0

/-- Fixed per-vowel weight applied after normalization (source lines
174-180; `A` carries no extra factor). -/
noncomputable def vowelScale : Vowel → ℝ
  | Vowel.A => 1
  | Vowel.E => 0.85
  | Vowel.I => 0.7
  | Vowel.O => 0.9
  | Vowel.U => 0.75

/-- One clamped sine lobe: `max(0.0, math.sin(phase * 2.0 * math.pi + offset))`. -/
noncomputable def rawLobe (phase : ℝ) (v : Vowel) : ℝ :=
  max 0 (Real.sin (phase * (2 * Real.pi) + vowelOffset v))

/-- Sum of the five raw lobes, in source order `raw_a + raw_e + raw_i + raw_o + raw_u`. -/
noncomputable def lobeTotal (phase : ℝ) : ℝ :=
  rawLobe phase Vowel.A + rawLobe phase Vowel.E + rawLobe phase Vowel.I +
    rawLobe phase Vowel.O + rawLobe phase Vowel.U

open Classical in
/-- The normalization divisor: the lobe sum, replaced by 1.0 when it is
below 0.01 (source lines 170-172). -/
noncomputable def lobeDivisor (phase : ℝ) : ℝ :=
  if lobeTotal phase < 1/100 then 1 else lobeTotal phase

/-- Target blend shapes for one tick (source lines 155 and 160-180): the
all-zero frame when the gated envelope is 0, otherwise each lobe normalized
by the divisor, scaled by the envelope and the per-vowel weight. -/
noncomputable def targetShapes (openEnv phase : ℚ) : Vowel → ℝ :=
  if openEnv = 0 then fun _ => 0
  else fun v => rawLobe (phase : ℝ) v / lobeDivisor (phase : ℝ) * (openEnv : ℝ) * vowelScale v

open Classical in
/-- Per-shape smoothing (source lines 182-189): interpolate 35% from the
previous frame toward the target and snap any value below 0.005 to 0. -/
noncomputable def smoothShapes (prev target : Vowel → ℝ) : Vowel → ℝ :=
  fun v =>
    let s2 := prev v + (target v - prev v) * (35/100)
    if s2 < 5/1000 then 0 else s2

/-- Full mutable state of `VMCLipSync`: `_envelope`, `_vowel_phase` and
`_prev_shapes` (the frame counter plays no role in the mathematics). -/
structure LipState where
  envelope : ℚ
  vowelPhase : ℚ
  prevShapes : Vowel → ℝ

/-- The whole of `VMCLipSync.rms_to_blend_shapes`: envelope stage, viseme
synthesis, smoothing; returns the returned openness, the frame handed to
`_send_blend_shapes`, and the new state (the smoothed frame is also stored
as `_prev_shapes`). -/
noncomputable def rmsToBlendShapes (cfg : LipSyncConfig) (st : LipState) (rms : ℚ) :
    ℚ × (Vowel → ℝ) × LipState :=
  let e := envUpdate cfg { level := st.envelope, phase := st.vowelPhase } rms
  let tgt := targetShapes e.1 e.2.phase
  let smoothed := smoothShapes st.prevShapes tgt
  (e.1, smoothed,
    { envelope := e.2.level, vowelPhase := e.2.phase, prevShapes := smoothed })

/-- Claim C5 counterexample: at envelope level 0 (all-zero envelope state,
silent input) with a previous frame carrying weight 1/2 on shape A, the
transmitted frame is not all-zero: shape A is sent with weight
1/2 · 0.65 = 13/40 (only the target frame is all-zero; the smoothing stage
interpolates from the previous frame). -/
theorem claim5_counterexample :
    (rmsToBlendShapes defaultConfig
        { envelope := 0, vowelPhase := 0,
          prevShapes := fun v => if v = Vowel.A then 1/2 else 0 } 0).1 = 0 ∧
    (rmsToBlendShapes defaultConfig
        { envelope := 0, vowelPhase := 0,
          prevShapes := fun v => if v = Vowel.A then 1/2 else 0 } 0).2.1 Vowel.A = 13/40 ∧
    ((13/40 : ℝ) ≠ 0) := by
  refine ⟨?_, ?_, by norm_num⟩
  · norm_num [rmsToBlendShapes, envUpdate, defaultConfig, lipFPS, min_def, max_def]
  · simp only [rmsToBlendShapes, envUpdate, defaultConfig, lipFPS]
    norm_num [targetShapes, smoothShapes, min_def, max_def]

/-- Claim C5 amended: whenever the gated envelope level of a tick is 0, the
target frame is all-zero and the stored vowel phase is reset to 0, and the
transmitted frame is the previous frame interpolated 35% toward zero
(that is, scaled by 0.65) with weights below 0.005 snapped to 0 — hence
all-zero whenever the previous frame was all-zero, but not for an arbitrary
previous frame. -/
theorem claim5_amended_level_zero (cfg : LipSyncConfig) (st : LipState) (rms : ℚ)
    (h : (rmsToBlendShapes cfg st rms).1 = 0) :
    (rmsToBlendShapes cfg st rms).2.2.vowelPhase = 0 ∧
    (targetShapes (rmsToBlendShapes cfg st rms).1
        (rmsToBlendShapes cfg st rms).2.2.vowelPhase = fun _ => 0) ∧
    ((rmsToBlendShapes cfg st rms).2.1 = fun v =>
      if st.prevShapes v * (65/100) < 5/1000 then 0 else st.prevShapes v * (65/100)) ∧
    ((∀ v, st.prevShapes v = 0) → (rmsToBlendShapes cfg st rms).2.1 = fun _ => 0) := by
  have hgate :
      max 0 (min cfg.maxOpen
        (if min cfg.maxOpen (rms * cfg.gain) > st.envelope then
          st.envelope + (min cfg.maxOpen (rms * cfg.gain) - st.envelope) * cfg.attack
        else
          st.envelope + (min cfg.maxOpen (rms * cfg.gain) - st.envelope) * (1 - cfg.release)))
        < 2/100 := by
    by_contra hc
    have : (rmsToBlendShapes cfg st rms).1 =
        max 0 (min cfg.maxOpen
          (if min cfg.maxOpen (rms * cfg.gain) > st.envelope then
            st.envelope + (min cfg.maxOpen (rms * cfg.gain) - st.envelope) * cfg.attack
          else
            st.envelope + (min cfg.maxOpen (rms * cfg.gain) - st.envelope) *
              (1 - cfg.release))) := by
      simp only [rmsToBlendShapes, envUpdate, if_neg hc]
    rw [h] at this
    have h2 : (2/100 : ℚ) ≤ 0 := this ▸ not_lt.mp hc
    norm_num at h2
  have hres : rmsToBlendShapes cfg st rms =
      (0, smoothShapes st.prevShapes (targetShapes 0
          (envUpdate cfg { level := st.envelope, phase := st.vowelPhase } rms).2.phase),
        { envelope := (envUpdate cfg { level := st.envelope, phase := st.vowelPhase } rms).2.level,
          vowelPhase := 0,
          prevShapes := smoothShapes st.prevShapes (targetShapes 0
            (envUpdate cfg { level := st.envelope, phase := st.vowelPhase } rms).2.phase) }) := by
    simp only [rmsToBlendShapes, envUpdate, if_pos hgate]
  have htgt : ∀ (p : ℚ), targetShapes 0 p = fun _ => 0 := fun p => by
    simp [targetShapes]
  have hsmooth : smoothShapes st.prevShapes (fun _ => 0) = fun v =>
      if st.prevShapes v * (65/100) < 5/1000 then 0 else st.prevShapes v * (65/100) := by
    funext v
    simp only [smoothShapes]
    have harith : st.prevShapes v + (0 - st.prevShapes v) * (35/100) =
        st.prevShapes v * (65/100) := by ring
    rw [harith]
  refine ⟨?_, ?_, ?_, ?_⟩
  · rw [hres]
  · rw [hres]
    simpa using htgt _
  · rw [hres]
    simp only
    rw [htgt, hsmooth]
  · intro hzero
    rw [hres]
    simp only
    rw [htgt, hsmooth]
    funext v
    rw [hzero v]
    norm_num

/-- Witness for claim C5 amended: the all-zero state with silent input has
gated envelope 0 and the conclusions hold there. -/
theorem claim5_amended_level_zero_witness :
    ((rmsToBlendShapes defaultConfig
        { envelope := 0, vowelPhase := 0, prevShapes := fun _ => 0 } 0).1 = 0) ∧
    ((rmsToBlendShapes defaultConfig
        { envelope := 0, vowelPhase := 0, prevShapes := fun _ => 0 } 0).2.2.vowelPhase = 0 ∧
    (targetShapes (rmsToBlendShapes defaultConfig
        { envelope := 0, vowelPhase := 0, prevShapes := fun _ => 0 } 0).1
        (rmsToBlendShapes defaultConfig
        { envelope := 0, vowelPhase := 0, prevShapes := fun _ => 0 } 0).2.2.vowelPhase =
      fun _ => 0) ∧
    ((rmsToBlendShapes defaultConfig
        { envelope := 0, vowelPhase := 0, prevShapes := fun _ => 0 } 0).2.1 = fun v =>
      if (fun _ : Vowel => (0 : ℝ)) v * (65/100) < 5/1000 then 0
      else (fun _ : Vowel => (0 : ℝ)) v * (65/100)) ∧
    ((∀ v, (fun _ : Vowel => (0 : ℝ)) v = 0) →
      (rmsToBlendShapes defaultConfig
        { envelope := 0, vowelPhase := 0, prevShapes := fun _ => 0 } 0).2.1 = fun _ => 0)) :=
  have h : (rmsToBlendShapes defaultConfig
      { envelope := 0, vowelPhase := 0, prevShapes := fun _ => 0 } 0).1 = 0 := by
    norm_num [rmsToBlendShapes, envUpdate, defaultConfig, lipFPS, min_def, max_def]
  ⟨h, claim5_amended_level_zero defaultConfig
    { envelope := 0, vowelPhase := 0, prevShapes := fun _ => 0 } 0 h⟩

/-- One step of the fade loop in `VMCLipSync._fade_close`: scale the
running previous frame by `1 - (step + 1) / 8`. -/
noncomputable def fadeStep (prev : Vowel → ℝ) (step : Nat) : Vowel → ℝ :=
  fun v => prev v * (1 - ((step : ℝ) + 1) / 8)

/-- The sequence of frames sent by the fade loop, each step updating the
running previous frame before sending it. -/
noncomputable def fadeSeq : (Vowel → ℝ) → List Nat → List (Vowel → ℝ)
  | _, [] => []
  | prev, s :: rest =>
    let sh := fadeStep prev s
    sh :: fadeSeq sh rest

/-- `VMCLipSync._fade_close` (source lines 225-237): run the 8-step fade
loop sending each scaled frame, then send the all-zero frame and reset
`_prev_shapes` and `_envelope` to zero (the vowel phase is untouched).
Returns all frames sent, in order, and the state afterwards. -/
noncomputable def fadeClose (st : LipState) : List (Vowel → ℝ) × LipState :=
  (fadeSeq st.prevShapes (List.range 8) ++ [fun _ => 0],
    { envelope := 0, vowelPhase := st.vowelPhase, prevShapes := fun _ => 0 })

/-- Claim C6: starting from a previous frame with weight 0.65 on shape A
(and 0 elsewhere), the 8 fade steps transmit A-weights
0.65·7/8, then compounding by 6/8, 5/8, ..., 0/8 — a strictly decreasing
sequence ending at 0 — followed by one final all-zero frame, after which
the previous-shape state and the envelope are reset to zero. -/
theorem claim6_fade_out :
    ((fadeClose ⟨13/20, 0, fun v => if v = Vowel.A then 65/100 else 0⟩).1.map
          (fun f => f Vowel.A) =
      [91/160, 273/640, 273/1024, 273/2048, 819/16384, 819/65536, 819/524288, 0, 0]) ∧
    ((65/100 : ℝ) > 91/160 ∧ (91/160 : ℝ) > 273/640 ∧ (273/640 : ℝ) > 273/1024 ∧
      (273/1024 : ℝ) > 273/2048 ∧ (273/2048 : ℝ) > 819/16384 ∧
      (819/16384 : ℝ) > 819/65536 ∧ (819/65536 : ℝ) > 819/524288 ∧
      (819/524288 : ℝ) > 0) ∧
    ((fadeClose ⟨13/20, 0, fun v => if v = Vowel.A then 65/100 else 0⟩).1.getLast? =
      some (fun _ => 0)) ∧
    ((fadeClose ⟨13/20, 0, fun v => if v = Vowel.A then 65/100 else 0⟩).2.prevShapes =
      fun _ => 0) ∧
    ((fadeClose ⟨13/20, 0, fun v => if v = Vowel.A then 65/100 else 0⟩).2.envelope = 0) := by
  have h8 : List.range 8 = [0, 1, 2, 3, 4, 5, 6, 7] := by rfl
  refine ⟨?_, by norm_num, ?_, rfl, rfl⟩
  · simp only [fadeClose, h8, fadeSeq, fadeStep, List.map_append, List.map_cons,
      List.map_nil, List.cons_append, List.nil_append]
    norm_num
  · simp only [fadeClose, List.getLast?_concat]

/-- Events observable at the playback queue: the boundary layer enqueues a
buffer (`handle_play_bytes` does `playback_queue.put`), the single worker
dequeues the head and starts rendering it (`playback_queue.get` followed by
`to_thread(play_audio_with_vmc)`), or the running render finishes (the
awaited thread returns and the worker loops).  The worker is sequential:
it can start a new render only when none is running. -/
inductive QEvent (β : Type)
  | enqueue (b : β)
  | start
  | finish

/-- Observable state of the playback queue system: pending buffers in queue
order, the renders currently running, the buffers fully rendered (in
completion order), and, as history, every buffer ever enqueued in arrival
order. -/
structure QState (β : Type) where
  pending : List β
  active : List β
  played : List β
  arrived : List β

/-- Initial queue state: nothing pending, running, played or arrived. -/
def qInit (β : Type) : QState β :=
  { pending := [], active := [], played := [], arrived := [] }

/-- One scheduler step.  `enqueue` appends to the queue; `start` is enabled
only when the worker is idle (the single consumer awaits the running render
before its next `get`) and moves the queue head into the running slot;
`finish` completes the running render.  Steps whose precondition fails
(e.g. `start` while a render runs, mirroring that the worker is not at its
`get` yet) leave the state unchanged. -/
def qStep (s : QState β) : QEvent β → QState β
  | QEvent.enqueue b =>
    { s with pending := s.pending ++ [b], arrived := s.arrived ++ [b] }
  | QEvent.start =>
    match s.active, s.pending with
    | [], b :: rest => { s with pending := rest, active := [b] }
    | _, _ => s
  | QEvent.finish =>
    match s.active with
    | [b] => { s with active := [], played := s.played ++ [b] }
    | _ => s

/-- Run the queue system over a sequence of events from the initial state. -/
def qRun (β : Type) (evs : List (QEvent β)) : QState β :=
  evs.foldl qStep (qInit β)

/-- The two invariants of the queue system, preserved by every step. -/
theorem qStep_invariant (s : QState β) (e : QEvent β)
    (h1 : s.active.length ≤ 1)
    (h2 : s.played ++ s.active ++ s.pending = s.arrived) :
    (qStep s e).active.length ≤ 1 ∧
      (qStep s e).played ++ (qStep s e).active ++ (qStep s e).pending = (qStep s e).arrived := by
  cases e with
  | enqueue b =>
    refine ⟨h1, ?_⟩
    simp only [qStep, ← h2]
    simp [List.append_assoc]
  | start =>
    cases hact : s.active with
    | nil =>
      cases hp : s.pending with
      | nil =>
        simp only [qStep, hact, hp]
        rw [hact, hp] at h2
        exact ⟨by simp, h2⟩
      | cons b rest =>
        constructor
        · simp [qStep, hact, hp]
        · simp only [qStep, hact, hp]
          rw [hact, hp] at h2
          simpa using h2
    | cons a t =>
      simp only [qStep, hact]
      rw [← hact]
      exact ⟨h1, h2⟩
  | finish =>
    cases hact : s.active with
    | nil => simp only [qStep, hact]; rw [← hact]; exact ⟨h1, h2⟩
    | cons a t =>
      cases t with
      | nil =>
        constructor
        · simp [qStep, hact]
        · simp only [qStep, hact]
          rw [hact] at h2
          simpa [List.append_assoc] using h2
      | cons c u =>
        simp only [qStep, hact]
        rw [← hact]
        exact ⟨h1, h2⟩

/-- Claim C7: in every state the queue system can reach, at most one render
session is active, and the fully-rendered buffers, followed by the running
one and then the still-pending ones, spell out exactly the arrival order.
Consequently renders begin in arrival order and, since a start is possible
only once the previous render has finished, each enqueued buffer is fully
rendered before the next one begins. -/
theorem claim7_queue_ordering (β : Type) (evs : List (QEvent β)) :
    (qRun β evs).active.length ≤ 1 ∧
      (qRun β evs).played ++ (qRun β evs).active ++ (qRun β evs).pending =
        (qRun β evs).arrived := by
  suffices h : ∀ (s : QState β), s.active.length ≤ 1 →
      s.played ++ s.active ++ s.pending = s.arrived →
      (evs.foldl qStep s).active.length ≤ 1 ∧
        (evs.foldl qStep s).played ++ (evs.foldl qStep s).active ++
          (evs.foldl qStep s).pending = (evs.foldl qStep s).arrived by
    exact h (qInit β) (by simp [qInit]) (by simp [qInit])
  induction evs with
  | nil => intro s h1 h2; exact ⟨h1, h2⟩
  | cons e rest ih =>
    intro s h1 h2
    have hstep := qStep_invariant s e h1 h2
    simpa [List.foldl_cons] using ih (qStep s e) hstep.1 hstep.2

/-- A queued playback item as the worker sees it: either rendering runs
normally (with the loudness samples its ticks feed the lip sync), or some
step inside the try block of `play_audio_with_vmc` raises (decode failure,
device failure, stream error). -/
inductive PlayItem
  | good (ticks : List ℚ)
  | failing

/-- `VMCLipSync.close_mouth` (source lines 239-243): send the all-zero
frame and reset `_prev_shapes` and `_envelope` to zero. -/
noncomputable def closeMouth (st : LipState) : (Vowel → ℝ) × LipState :=
  (fun _ => 0, { envelope := 0, vowelPhase := st.vowelPhase, prevShapes := fun _ => 0 })

/-- A run of lip-sync ticks during rendering: the frames sent and the state
afterwards. -/
noncomputable def lipTicks (cfg : LipSyncConfig) :
    LipState → List ℚ → List (Vowel → ℝ) × LipState
  | st, [] => ([], st)
  | st, r :: rs =>
    let t := rmsToBlendShapes cfg st r
    let rest := lipTicks cfg t.2.2 rs
    (t.2.1 :: rest.1, rest.2)

/-- `AudioRouter.play_audio_with_vmc` at the granularity claim C8 needs: on
normal rendering the lip-sync ticks run and the companion `vmc_worker`
finishes with `_fade_close`; any exception inside the try block is caught
(source lines 483-486), `close_mouth` is called and `False` returned.
Returns the flag, every frame transmitted while handling the item, and the
lip state afterwards. -/
noncomputable def playAudioWithVmc (cfg : LipSyncConfig) (st : LipState) :
    PlayItem → Bool × List (Vowel → ℝ) × LipState
  | PlayItem.good ticks =>
    let tk := lipTicks cfg st ticks
    let fc := fadeClose tk.2
    (true, tk.1 ++ fc.1, fc.2)
  | PlayItem.failing =>
    let cm := closeMouth st
    (false, [cm.1], cm.2)

/-- The playback queue worker (source lines 544-555): dequeue and play each
item in order; its own try/except/finally means an item outcome never exits
the loop, so every queued item is processed. -/
noncomputable def playbackWorker (cfg : LipSyncConfig) :
    LipState → List PlayItem → List (Bool × List (Vowel → ℝ)) × LipState
  | st, [] => ([], st)
  | st, it :: rest =>
    let r := playAudioWithVmc cfg st it
    let rs := playbackWorker cfg r.2.2 rest
    ((r.1, r.2.1) :: rs.1, rs.2)

/-- Claim C8: whatever mix of failing and normal items is queued, the
worker processes every item, in order (one result per item, successes and
failures reported faithfully, so no single failure stalls or stops it), and
the handling of every item — failed ones included, via the close path —
ends by transmitting the all-zero frame; after any non-empty batch the lip
state holds the fully closed mouth. -/
theorem claim8_worker_survives (cfg : LipSyncConfig) (st : LipState) (items : List PlayItem) :
    ((playbackWorker cfg st items).1.length = items.length) ∧
    ((playbackWorker cfg st items).1.map Prod.fst = items.map (fun it =>
      match it with
      | PlayItem.good _ => true
      | PlayItem.failing => false)) ∧
    (∀ p ∈ (playbackWorker cfg st items).1, p.2.getLast? = some (fun _ => 0)) ∧
    (items ≠ [] →
      (playbackWorker cfg st items).2.prevShapes = (fun _ => 0) ∧
        (playbackWorker cfg st items).2.envelope = 0) := by
  induction items generalizing st with
  | nil => simp [playbackWorker]
  | cons it rest ih =>
    have hitem : ∀ (s : LipState),
        (playAudioWithVmc cfg s it).2.1.getLast? = some (fun _ => 0) ∧
        (playAudioWithVmc cfg s it).2.2.prevShapes = (fun _ => 0) ∧
        (playAudioWithVmc cfg s it).2.2.envelope = 0 := by
      intro s
      cases it with
      | good ticks =>
        refine ⟨?_, rfl, rfl⟩
        simp only [playAudioWithVmc, fadeClose]
        rw [← List.append_assoc, List.getLast?_concat]
      | failing => exact ⟨rfl, rfl, rfl⟩
    have hflag : (playAudioWithVmc cfg st it).1 = (match it with
        | PlayItem.good _ => true
        | PlayItem.failing => false) := by
      cases it <;> rfl
    obtain ⟨h1, h2, h3, h4⟩ := ih (playAudioWithVmc cfg st it).2.2
    refine ⟨?_, ?_, ?_, ?_⟩
    · simp only [playbackWorker, List.length_cons, List.map_cons]
      rw [h1]
    · simp only [playbackWorker, List.map_cons]
      rw [h2, hflag]
      cases it <;> rfl
    · intro p hp
      simp only [playbackWorker, List.mem_cons] at hp
      rcases hp with hp | hp
      · rw [hp]
        exact (hitem st).1
      · exact h3 p hp
    · intro _
      cases hrest : rest with
      | nil =>
        simp only [playbackWorker, hrest]
        exact ⟨(hitem st).2.1, (hitem st).2.2⟩
      | cons c u =>
        rw [hrest] at h4
        have h5 := h4 (List.cons_ne_nil c u)
        simp only [playbackWorker] at h5 ⊢
        exact h5

/-- On the band `[1/5, π - 1/5]` the sine exceeds 1/100: sine is at least
`sin (1/5)` there by monotonicity and symmetry, and `sin (1/5)` is bounded
below through the cubic lower bound. -/
theorem sin_band_gt (y : ℝ) (h1 : 1/5 ≤ y) (h2 : y ≤ Real.pi - 1/5) :
    1/100 < Real.sin y := by
  have hpi : (3.14 : ℝ) < Real.pi := Real.pi_gt_d2
  have hbase : (1/100 : ℝ) < Real.sin (1/5) := by
    have hc := Real.sin_gt_sub_cube (x := 1/5) (by norm_num) (by norm_num)
    nlinarith [hc]
  have hmono : Real.sin (1/5) ≤ Real.sin y := by
    by_cases hc : y ≤ Real.pi / 2
    · exact Real.strictMonoOn_sin.monotoneOn
        (Set.mem_Icc.mpr ⟨by nlinarith, by nlinarith⟩)
        (Set.mem_Icc.mpr ⟨by nlinarith, hc⟩) h1
    · push_neg at hc
      have h3 : Real.sin (Real.pi - y) = Real.sin y := Real.sin_pi_sub y
      rw [← h3]
      exact Real.strictMonoOn_sin.monotoneOn
        (Set.mem_Icc.mpr ⟨by nlinarith, by nlinarith⟩)
        (Set.mem_Icc.mpr ⟨by nlinarith, by nlinarith⟩) (by nlinarith)
  linarith

/-- Sine is unchanged by subtracting a full turn. -/
theorem sin_sub_two_pi_eq (a : ℝ) : Real.sin a = Real.sin (a - 2 * Real.pi) := by
  rw [Real.sin_sub, Real.cos_two_pi, Real.sin_two_pi]
  ring

/-- The sine of a lobe argument depends only on the fractional part of the
phase. -/
theorem sin_phase_reduce (p c : ℝ) :
    Real.sin (p * (2 * Real.pi) + c) = Real.sin (Int.fract p * (2 * Real.pi) + c) := by
  have hf : (⌊p⌋ : ℝ) + Int.fract p = p := Int.floor_add_fract p
  have h : p * (2 * Real.pi) + c =
      (Int.fract p * (2 * Real.pi) + c) + (⌊p⌋ : ℤ) * (2 * Real.pi) := by
    linear_combination (2 * Real.pi) * hf.symm
  rw [h, Real.sin_add_int_mul_two_pi]

/-- The lobe sum dominates the sine of each single lobe argument, because
every lobe is clamped non-negative. -/
theorem lobeTotal_ge_sin (p : ℝ) (v : Vowel) :
    Real.sin (p * (2 * Real.pi) + vowelOffset v) ≤ lobeTotal p := by
  have hA : (0:ℝ) ≤ rawLobe p Vowel.A := le_max_left 0 _
  have hE : (0:ℝ) ≤ rawLobe p Vowel.E := le_max_left 0 _
  have hI : (0:ℝ) ≤ rawLobe p Vowel.I := le_max_left 0 _
  have hO : (0:ℝ) ≤ rawLobe p Vowel.O := le_max_left 0 _
  have hU : (0:ℝ) ≤ rawLobe p Vowel.U := le_max_left 0 _
  have hv : Real.sin (p * (2 * Real.pi) + vowelOffset v) ≤ rawLobe p v :=
    le_max_right 0 _
  cases v <;> (simp only [lobeTotal]; linarith)

/-- Claim C10: for every value of the vowel phase the sum of the five
clamped sine lobes is strictly greater than 0.01, so the fallback-divisor
branch is unreachable and the normalization always divides by the true lobe
sum.  The proof reduces the phase angle modulo one turn and, splitting the
turn at 1.6, 2.9 and 5.3 radians, exhibits on each piece one lobe whose
argument lies in the band `[1/5, π - 1/5]`. -/
theorem claim10_lobe_sum_positive (p : ℝ) :
    1/100 < lobeTotal p ∧ lobeDivisor p = lobeTotal p := by
  have hpi1 : (3.14 : ℝ) < Real.pi := Real.pi_gt_d2
  have hpi2 : Real.pi < 3.15 := Real.pi_lt_d2
  have hx0 : (0:ℝ) ≤ Int.fract p := Int.fract_nonneg p
  have hx1 : Int.fract p < 1 := Int.fract_lt_one p
  have hθ0 : 0 ≤ Int.fract p * (2 * Real.pi) := by nlinarith
  have hθ1 : Int.fract p * (2 * Real.pi) < 2 * Real.pi := by nlinarith
  have key : 1/100 < lobeTotal p := by
    rcases le_or_lt (Int.fract p * (2 * Real.pi)) (8/5) with hc1 | hc1
    · have harg : 1/100 < Real.sin (Int.fract p * (2 * Real.pi) + vowelOffset Vowel.E) := by
        have hoff : vowelOffset Vowel.E = (1.2 : ℝ) := rfl
        rw [hoff]
        exact sin_band_gt _ (by norm_num [hθ0]; nlinarith) (by norm_num; nlinarith)
      calc (1/100 : ℝ)
          < Real.sin (Int.fract p * (2 * Real.pi) + vowelOffset Vowel.E) := harg
        _ = Real.sin (p * (2 * Real.pi) + vowelOffset Vowel.E) :=
            (sin_phase_reduce p _).symm
        _ ≤ lobeTotal p := lobeTotal_ge_sin p Vowel.E
    · rcases le_or_lt (Int.fract p * (2 * Real.pi)) (29/10) with hc2 | hc2
      · have harg : 1/100 < Real.sin (Int.fract p * (2 * Real.pi) + vowelOffset Vowel.A) := by
          have hoff : vowelOffset Vowel.A = (0 : ℝ) := rfl
          rw [hoff, add_zero]
          exact sin_band_gt _ (by nlinarith) (by nlinarith)
        calc (1/100 : ℝ)
            < Real.sin (Int.fract p * (2 * Real.pi) + vowelOffset Vowel.A) := harg
          _ = Real.sin (p * (2 * Real.pi) + vowelOffset Vowel.A) :=
              (sin_phase_reduce p _).symm
          _ ≤ lobeTotal p := lobeTotal_ge_sin p Vowel.A
      · rcases le_or_lt (Int.fract p * (2 * Real.pi)) (53/10) with hc3 | hc3
        · have harg : 1/100 <
              Real.sin (Int.fract p * (2 * Real.pi) + vowelOffset Vowel.O) := by
            have hoff : vowelOffset Vowel.O = (3.8 : ℝ) := rfl
            rw [hoff, sin_sub_two_pi_eq]
            refine sin_band_gt _ ?_ ?_
            · norm_num
              nlinarith
            · nlinarith
          calc (1/100 : ℝ)
              < Real.sin (Int.fract p * (2 * Real.pi) + vowelOffset Vowel.O) := harg
            _ = Real.sin (p * (2 * Real.pi) + vowelOffset Vowel.O) :=
                (sin_phase_reduce p _).symm
            _ ≤ lobeTotal p := lobeTotal_ge_sin p Vowel.O
        · have harg : 1/100 <
              Real.sin (Int.fract p * (2 * Real.pi) + vowelOffset Vowel.E) := by
            have hoff : vowelOffset Vowel.E = (1.2 : ℝ) := rfl
            rw [hoff, sin_sub_two_pi_eq]
            refine sin_band_gt _ ?_ ?_
            · norm_num
              nlinarith
            · nlinarith
          calc (1/100 : ℝ)
              < Real.sin (Int.fract p * (2 * Real.pi) + vowelOffset Vowel.E) := harg
            _ = Real.sin (p * (2 * Real.pi) + vowelOffset Vowel.E) :=
                (sin_phase_reduce p _).symm
            _ ≤ lobeTotal p := lobeTotal_ge_sin p Vowel.E
  refine ⟨key, ?_⟩
  rw [lobeDivisor, if_neg (not_lt.mpr key.le)]

end AudioRouter
